import Mathlib

/-!
# Verification of the date-range analytics engine

Shallow embedding of the core of `src/index.tsx`: the ROC→Gregorian
calendar converter (`rocToGregorian`), the two-window district
classification pass (`calculateYearlyDistrictStats`) and the
target-completion derivation (`renderCompletionVisuals`'s data
construction, embedded as `renderCompletionData`).

Modelling conventions:
* A JavaScript `Date` value is represented by its time value, an `Int`
  number of milliseconds since the (local) epoch.  `new Date(y, m, d)`
  is embedded as `newDateYMD`, including ECMAScript's month/day rollover
  normalisation and the two-digit-year adjustment (a year argument in
  `[0, 99]` is read as `1900 + y`).  Numbers are modelled as exact
  integers / rationals (the claims never reach the float-precision or
  `Invalid Date` overflow regime).
* `parseInt(s, 10)` is embedded as `parseIntJS`: skip leading
  whitespace, optional sign, then the maximal run of leading decimal
  digits; `none` models `NaN`.
* `s.split(/[\/\-]/)` is embedded as `splitSep` on the character list.
* JavaScript objects used as string-keyed maps (`DistrictStats`,
  the targets `Map`) are embedded as insertion-ordered association
  lists with unique keys reached by `lookupD`/first match.
* `Array.prototype.sort()` on district keys compares strings by UTF-16
  code units; this is `jsSort` below.
-/

namespace GD

/-! ## JavaScript primitives -/

/-- Whitespace skipped by `parseInt` (the common `StrWhiteSpace` characters). -/
def isJsSpace (c : Char) : Bool :=
  c = ' ' || c = '\t' || c = '\n' || c = '\r' || c = '\x0b' || c = '\x0c' ||
    c = '\u00A0' || c = '\uFEFF'

/-- Numeric value of a decimal digit character. -/
def digitVal (c : Char) : Nat := c.toNat - '0'.toNat

/-- Value of a run of decimal digits, most significant first. -/
def digitsToNat (ds : List Char) : Nat :=
  ds.foldl (fun a c => a * 10 + digitVal c) 0

/-- `parseInt(s, 10)`: skip leading whitespace, read an optional sign and
then the maximal run of leading decimal digits; `none` models `NaN`
(no leading digit after the optional sign). -/
def parseIntJS (p : List Char) : Option Int :=
  let cs := p.dropWhile isJsSpace
  let sign : Int := if cs.head? = some '-' then -1 else 1
  let rest := if cs.head? = some '-' ∨ cs.head? = some '+' then cs.tail else cs
  let digits := rest.takeWhile (fun c => c.isDigit)
  if digits.isEmpty then none
  else some (sign * (digitsToNat digits : Int))

/-- `s.split(/[\/\-]/)`: split the character list at every `/` or `-`
occurrence; an empty string yields the single empty part, matching
JavaScript's `"".split(/[\/\-]/) === [""]`. -/
def splitSep : List Char → List (List Char)
  | [] => [[]]
  | c :: cs =>
    if c = '/' || c = '-' then [] :: splitSep cs
    else
      match splitSep cs with
      | [] => [[c]]
      | p :: ps => (c :: p) :: ps

/-! ## Calendar arithmetic (ECMAScript `MakeDay`) -/

/-- Milliseconds in one day. -/
def msPerDay : Int := 86400000

/-- Days since 1970-01-01 of the civil date `y-m-d` (`m` is 1-based and
must lie in `1..12`; `d` may be out of range and simply shifts the day
count linearly, which is exactly ECMAScript's day normalisation). -/
def daysFromCivil (y m d : Int) : Int :=
  let yA := if m ≤ 2 then y - 1 else y
  let era := Int.fdiv yA 400
  let yoe := yA - era * 400
  let mp := Int.fmod (m + 9) 12
  let doy := Int.fdiv (153 * mp + 2) 5 + d - 1
  let doe := yoe * 365 + Int.fdiv yoe 4 - Int.fdiv yoe 100 + doy
  era * 146097 + doe - 719468

/-- Time value (ms) of the civil date `y-m-d` at local midnight
(`m` 1-based, in `1..12`). -/
def civilMs (y m d : Int) : Int := daysFromCivil y m d * msPerDay

/-- ECMAScript `MakeDay` month/day normalisation, as a time value:
month `m0` is 0-based and arbitrary, excess months roll into the year
and out-of-range days roll into adjacent months. -/
def rolloverMs (y m0 d : Int) : Int :=
  let ym := y + Int.fdiv m0 12
  let mn := Int.fmod m0 12
  civilMs ym (mn + 1) d

/-- `new Date(y, m0, d).getTime()` (local time): the two-digit-year
adjustment (`0 ≤ y ≤ 99` reads as `1900 + y`) followed by `MakeDay`
rollover normalisation. -/
def newDateYMD (y m0 d : Int) : Int :=
  rolloverMs (if 0 ≤ y ∧ y ≤ 99 then 1900 + y else y) m0 d

/-! ## The calendar converter -/

/-- `rocToGregorian` from `src/index.tsx`: split the string on `/` or
`-`; unless there are exactly three parts each with a parseable leading
integer, return `null` (`none`); otherwise build
`new Date(rocYear + 1911, month - 1, day)`.  The result is the date's
time value in ms.  The `!rocDateStr` guard rejects the empty string
(the only falsy string); `null`/`undefined` inputs are covered by
`rocToGregorianNullable` below. -/
def rocToGregorian (rocDateStr : String) : Option Int :=
  if rocDateStr = "" then none
  else
    match splitSep rocDateStr.data with
    | [p0, p1, p2] =>
      match parseIntJS p0, parseIntJS p1, parseIntJS p2 with
      | some rocYear, some month, some day =>
        some (newDateYMD (rocYear + 1911) (month - 1) day)
      | _, _, _ => none
    | _ => none

/-- `rocToGregorian` on a possibly-`null` input: the `!rocDateStr`
guard returns `null` for `null`/`undefined`. -/
def rocToGregorianNullable : Option String → Option Int
  | none => none
  | some s => rocToGregorian s

/-! ## Records and the classification pass -/

/-- One inspection record (`StationData` in `src/index.tsx`).
Field names translate the Chinese keys:
`stationName` = 基地台名稱, `district` = 轄區, `stationType` = 型式,
`height` = 高度(米), `prevMaintenance` = 上期維護,
`currentInspection` = 本次檢查, `inspectionNotes` = 檢查與改善,
`remarks` = 備 註. -/
structure StationData where
  stationName : String
  district : String
  stationType : String
  height : Int
  prevMaintenance : String
  currentInspection : String
  inspectionNotes : String
  remarks : String
deriving DecidableEq, Repr

/-- The per-district counter triple of `DistrictStats`. -/
structure Counts where
  countA : Nat
  countB : Nat
  countC : Nat
deriving DecidableEq, Repr

instance : Inhabited Counts := ⟨⟨0, 0, 0⟩⟩

/-- `DistrictStats`: a string-keyed object, embedded as an
insertion-ordered association list. -/
abbrev DistrictStats := List (String × Counts)

/-- First-match association-list lookup (`stats[district]`). -/
def lookupD {β : Type} : List (String × β) → String → Option β
  | [], _ => none
  | (k, v) :: rest, d => if k = d then some v else lookupD rest d

/-- `if (!stats[district]) stats[district] = {countA:0, countB:0, countC:0}`;
a fresh key is appended, matching JS object key insertion order. -/
def ensureDistrict (stats : DistrictStats) (d : String) : DistrictStats :=
  if (lookupD stats d).isSome then stats else stats ++ [(d, ⟨0, 0, 0⟩)]

/-- In-place update of the (unique) entry with key `d`
(`stats[district].countA++` and friends). -/
def updateDistrict : DistrictStats → String → (Counts → Counts) → DistrictStats
  | [], _, _ => []
  | (k, v) :: rest, d, f =>
    if k = d then (k, f v) :: rest else (k, v) :: updateDistrict rest d f

/-- The body of the `data.forEach` loop in `calculateYearlyDistrictStats`:
skip falsy districts, ensure a zeroed triple, resolve the date, then the
A-range check followed by the (else) B-range check. -/
def processItem (startA endA startB endB : Int) (stats : DistrictStats)
    (item : StationData) : DistrictStats :=
  let district := item.district
  if district = "" then stats
  else
    let stats1 := ensureDistrict stats district
    match rocToGregorian item.currentInspection with
    | none => stats1
    | some itemDate =>
      if startA ≤ itemDate ∧ itemDate ≤ endA then
        updateDistrict stats1 district (fun c => { c with countA := c.countA + 1 })
      else if startB ≤ itemDate ∧ itemDate ≤ endB then
        updateDistrict stats1 district (fun c => { c with countB := c.countB + 1 })
      else stats1

/-- The classification loop of `calculateYearlyDistrictStats` (records
classified, `countC` untouched). -/
def classifyPass (data : List StationData) (startA endA startB endB : Int) :
    DistrictStats :=
  data.foldl (processItem startA endA startB endB) []

/-- The final `for (const district in stats)` pass:
`countC = countA + countB` for every district. -/
def finalizeCountC (stats : DistrictStats) : DistrictStats :=
  stats.map (fun p => (p.1, { p.2 with countC := p.2.countA + p.2.countB }))

/-- `calculateYearlyDistrictStats(data, startA, endA, startB, endB)`:
the classification loop followed by the final `countC` pass. -/
def calculateYearlyDistrictStats (data : List StationData)
    (startA endA startB endB : Int) : DistrictStats :=
  finalizeCountC (classifyPass data startA endA startB endB)

/-! ## JS string sort (UTF-16 code-unit order) -/

/-- The UTF-16 code units of a string (astral code points become a
surrogate pair); JS string comparison is lexicographic on these. -/
def utf16Units (s : String) : List Nat :=
  s.data.flatMap (fun c =>
    let v := c.toNat
    if v < 65536 then [v]
    else [55296 + (v - 65536) / 1024, 56320 + (v - 65536) % 1024])

/-- Lexicographic strict order on unit lists. -/
def lexLtB : List Nat → List Nat → Bool
  | _, [] => false
  | [], _ :: _ => true
  | a :: as, b :: bs => if a < b then true else if b < a then false else lexLtB as bs

/-- The non-strict JS string order `a ≤ b` (i.e. `!(b < a)` in JS). -/
def jsLe (a b : String) : Prop := lexLtB (utf16Units b) (utf16Units a) = false

instance : DecidableRel jsLe := fun a b =>
  inferInstanceAs (Decidable (lexLtB (utf16Units b) (utf16Units a) = false))

/-- `Array.prototype.sort()` on strings: ascending in UTF-16
code-unit order (for the pairwise-distinct key arrays the code sorts,
any comparison sort produces this unique ascending arrangement). -/
def jsSort (l : List String) : List String := l.insertionSort jsLe

/-- One bar of the completion chart: `{ key, percentage }`.
Percentages are exact rationals standing for the JS float division. -/
structure CompletionEntry where
  key : String
  percentage : ℚ
deriving DecidableEq, Repr

/-- The targets `Map<string, number>`, insertion-ordered with unique keys. -/
abbrev TargetMap := List (String × ℚ)

/-- The accumulator step of the `sortedDistricts.forEach` loop in
`renderCompletionVisuals`: state is `(completionData, totalC, totalTarget)`.
`target && target > 0` on a number is `0 < target` (0 and NaN are falsy). -/
def completionStep (stats : DistrictStats) (targets : TargetMap)
    (acc : List CompletionEntry × ℚ × ℚ) (district : String) :
    List CompletionEntry × ℚ × ℚ :=
  match lookupD targets district with
  | some target =>
    if 0 < target then
      let c : ℚ := ((lookupD stats district).getD ⟨0, 0, 0⟩).countC
      (acc.1 ++ [⟨district, c / target * 100⟩], acc.2.1 + c, acc.2.2 + target)
    else acc
  | none => acc

/-- The data construction of `renderCompletionVisuals(stats, targets)`:
iterate the sorted district keys accumulating per-district entries and
the totals, then append the aggregate `總轄區` entry when
`totalTarget > 0`.  (The surrounding DOM rendering is presentation and
is not part of the core.) -/
def renderCompletionData (stats : DistrictStats) (targets : TargetMap) :
    List CompletionEntry :=
  let acc := (jsSort (stats.map Prod.fst)).foldl (completionStep stats targets) ([], 0, 0)
  if 0 < acc.2.2 then acc.1 ++ [⟨"總轄區", acc.2.1 / acc.2.2 * 100⟩] else acc.1

/-! ## Specification-side re-expressions used by the theorems -/

/-- Whether a district has a qualifying (strictly positive) target. -/
def hasPosTarget (targets : TargetMap) (d : String) : Bool :=
  match lookupD targets d with
  | some t => decide (0 < t)
  | none => false

/-- The qualifying districts in the order the completion pass visits
them: sorted keys filtered to those with a positive target. -/
def qualifyingDistricts (stats : DistrictStats) (targets : TargetMap) : List String :=
  (jsSort (stats.map Prod.fst)).filter (hasPosTarget targets)

/-- `countC` of a district, as a rational. -/
def countCQ (stats : DistrictStats) (d : String) : ℚ :=
  ((lookupD stats d).getD ⟨0, 0, 0⟩).countC

/-- The target of a district, defaulting to `0`. -/
def targetQ (targets : TargetMap) (d : String) : ℚ :=
  (lookupD targets d).getD 0

/-- Sum of `countC` over the qualifying districts. -/
def sumCQ (stats : DistrictStats) (targets : TargetMap) : ℚ :=
  ((qualifyingDistricts stats targets).map (countCQ stats)).sum

/-- Sum of the targets over the qualifying districts. -/
def sumTargetQ (stats : DistrictStats) (targets : TargetMap) : ℚ :=
  ((qualifyingDistricts stats targets).map (targetQ targets)).sum

/-! ## Association-list lemmas -/

theorem lookupD_append {β : Type} (l l' : List (String × β)) (d : String) :
    lookupD (l ++ l') d = ((lookupD l d).map some).getD (lookupD l' d) := by
  induction l with
  | nil => simp [lookupD]
  | cons p rest ih =>
    obtain ⟨k, v⟩ := p
    by_cases h : k = d <;> simp [lookupD, h, ih]

theorem lookupD_isSome_iff_mem {β : Type} (l : List (String × β)) (d : String) :
    (lookupD l d).isSome ↔ d ∈ l.map Prod.fst := by
  induction l with
  | nil => simp [lookupD]
  | cons p rest ih =>
    obtain ⟨k, v⟩ := p
    simp only [lookupD, List.map_cons, List.mem_cons]
    by_cases h : k = d
    · subst h; simp
    · rw [if_neg h, ih]
      constructor
      · exact fun hm => Or.inr hm
      · rintro (rfl | hm)
        · exact absurd rfl h
        · exact hm

theorem lookupD_eq_none_iff_not_mem {β : Type} (l : List (String × β)) (d : String) :
    lookupD l d = none ↔ d ∉ l.map Prod.fst := by
  rw [← lookupD_isSome_iff_mem, Option.isSome_iff_ne_none]
  simp

theorem lookupD_map_snd (g : Counts → Counts) (stats : DistrictStats) (d : String) :
    lookupD (stats.map (fun p => (p.1, g p.2))) d = (lookupD stats d).map g := by
  induction stats with
  | nil => simp [lookupD]
  | cons p rest ih =>
    obtain ⟨k, v⟩ := p
    by_cases h : k = d <;> simp [lookupD, h, ih]

theorem keys_map_snd (g : Counts → Counts) (stats : DistrictStats) :
    (stats.map (fun p => (p.1, g p.2))).map Prod.fst = stats.map Prod.fst := by
  induction stats with
  | nil => rfl
  | cons p rest ih => simp [ih]

theorem lookupD_updateDistrict (stats : DistrictStats) (d : String)
    (f : Counts → Counts) (d' : String) :
    lookupD (updateDistrict stats d f) d' =
      if d' = d ∧ (lookupD stats d).isSome then (lookupD stats d').map f
      else lookupD stats d' := by
  induction stats with
  | nil => simp [updateDistrict, lookupD]
  | cons p rest ih =>
    obtain ⟨k, v⟩ := p
    by_cases hk : k = d
    · subst hk
      by_cases hk' : k = d'
      · subst hk'
        simp [updateDistrict, lookupD]
      · have hne : ¬ d' = k := fun h => hk' h.symm
        simp [updateDistrict, lookupD, hk', hne]
    · by_cases hk' : k = d'
      · subst hk'
        simp [updateDistrict, lookupD, hk, fun h : k = d => hk h]
      · simp [updateDistrict, lookupD, hk, hk', ih]

theorem keys_updateDistrict (stats : DistrictStats) (d : String) (f : Counts → Counts) :
    (updateDistrict stats d f).map Prod.fst = stats.map Prod.fst := by
  induction stats with
  | nil => rfl
  | cons p rest ih =>
    obtain ⟨k, v⟩ := p
    by_cases hk : k = d <;> simp [updateDistrict, hk, ih]

theorem lookupD_ensureDistrict (stats : DistrictStats) (d d' : String) :
    lookupD (ensureDistrict stats d) d' =
      if d' = d then some ((lookupD stats d).getD ⟨0, 0, 0⟩)
      else lookupD stats d' := by
  unfold ensureDistrict
  by_cases hs : (lookupD stats d).isSome
  · rw [if_pos hs]
    by_cases h : d' = d
    · subst h
      obtain ⟨c, hc⟩ := Option.isSome_iff_exists.mp hs
      simp [hc]
    · simp [h]
  · rw [if_neg hs]
    have hn : lookupD stats d = none := Option.not_isSome_iff_eq_none.mp hs
    by_cases h : d' = d
    · subst h
      simp [lookupD_append, hn, lookupD]
    · simp only [lookupD_append, if_neg h]
      cases hx : lookupD stats d' with
      | none =>
        simp [lookupD]
        exact fun hh => h hh.symm
      | some v => simp

theorem keys_ensureDistrict (stats : DistrictStats) (d : String) :
    (ensureDistrict stats d).map Prod.fst =
      if (lookupD stats d).isSome then stats.map Prod.fst
      else stats.map Prod.fst ++ [d] := by
  unfold ensureDistrict
  by_cases hs : (lookupD stats d).isSome <;> simp [hs]

/-! ## Lemmas about one classification step -/

theorem processItem_eq_empty (startA endA startB endB : Int) (stats : DistrictStats)
    (item : StationData) (hd : item.district = "") :
    processItem startA endA startB endB stats item = stats := by
  simp only [processItem, hd, if_true]

theorem processItem_eq_none (startA endA startB endB : Int) (stats : DistrictStats)
    (item : StationData) (hd : item.district ≠ "")
    (h : rocToGregorian item.currentInspection = none) :
    processItem startA endA startB endB stats item =
      ensureDistrict stats item.district := by
  simp only [processItem, h, if_neg hd]

theorem processItem_eq_some (startA endA startB endB : Int) (stats : DistrictStats)
    (item : StationData) (t : Int) (hd : item.district ≠ "")
    (h : rocToGregorian item.currentInspection = some t) :
    processItem startA endA startB endB stats item =
      (if startA ≤ t ∧ t ≤ endA then
        updateDistrict (ensureDistrict stats item.district) item.district
          (fun c => { c with countA := c.countA + 1 })
      else if startB ≤ t ∧ t ≤ endB then
        updateDistrict (ensureDistrict stats item.district) item.district
          (fun c => { c with countB := c.countB + 1 })
      else ensureDistrict stats item.district) := by
  simp only [processItem, h, if_neg hd]

theorem keys_processItem (startA endA startB endB : Int) (stats : DistrictStats)
    (item : StationData) :
    (processItem startA endA startB endB stats item).map Prod.fst =
      if item.district = "" then stats.map Prod.fst
      else if (lookupD stats item.district).isSome then stats.map Prod.fst
      else stats.map Prod.fst ++ [item.district] := by
  unfold processItem
  by_cases hd : item.district = ""
  · simp [hd]
  · rw [if_neg hd, if_neg hd]
    cases hdate : rocToGregorian item.currentInspection with
    | none => simp [keys_ensureDistrict]
    | some t =>
      by_cases hA : startA ≤ t ∧ t ≤ endA
      · simp [hA, keys_updateDistrict, keys_ensureDistrict]
      · by_cases hB : startB ≤ t ∧ t ≤ endB <;>
          simp [hA, hB, keys_updateDistrict, keys_ensureDistrict]

theorem lookupD_processItem_other (startA endA startB endB : Int)
    (stats : DistrictStats) (item : StationData) (d : String)
    (hne : item.district ≠ d) :
    lookupD (processItem startA endA startB endB stats item) d = lookupD stats d := by
  have hdd : ¬ d = item.district := fun h => hne h.symm
  have hens : lookupD (ensureDistrict stats item.district) d = lookupD stats d := by
    rw [lookupD_ensureDistrict, if_neg hdd]
  by_cases hd : item.district = ""
  · rw [processItem_eq_empty _ _ _ _ _ _ hd]
  · cases hdate : rocToGregorian item.currentInspection with
    | none => rw [processItem_eq_none _ _ _ _ _ _ hd hdate, hens]
    | some t =>
      rw [processItem_eq_some _ _ _ _ _ _ _ hd hdate]
      by_cases hA : startA ≤ t ∧ t ≤ endA
      · rw [if_pos hA, lookupD_updateDistrict]
        rw [if_neg (fun hx => hdd hx.1), hens]
      · rw [if_neg hA]
        by_cases hB : startB ≤ t ∧ t ≤ endB
        · rw [if_pos hB, lookupD_updateDistrict]
          rw [if_neg (fun hx => hdd hx.1), hens]
        · rw [if_neg hB, hens]

/-- A classification step never touches `countC`: ensuring installs a
zeroed triple and the two increments preserve the third field. -/
theorem countC_processItem (startA endA startB endB : Int) (stats : DistrictStats)
    (item : StationData) (d : String)
    (h : ∀ c, lookupD stats d = some c → c.countC = 0) :
    ∀ c, lookupD (processItem startA endA startB endB stats item) d = some c →
      c.countC = 0 := by
  intro c hc
  by_cases hne : item.district = d
  case neg =>
    rw [lookupD_processItem_other _ _ _ _ _ _ _ hne] at hc
    exact h c hc
  case pos =>
    subst hne
    by_cases hd : item.district = ""
    · rw [processItem_eq_empty _ _ _ _ _ _ hd] at hc; exact h c hc
    · have hens : ∀ c, lookupD (ensureDistrict stats item.district) item.district = some c →
          c.countC = 0 := by
        intro c hcc
        rw [lookupD_ensureDistrict, if_pos rfl] at hcc
        cases hx : lookupD stats item.district with
        | none => rw [hx] at hcc; simp at hcc; simp [← hcc]
        | some c0 =>
          rw [hx] at hcc; simp at hcc
          rw [← hcc]; exact h c0 hx
      have hupd : ∀ (f : Counts → Counts), (∀ c, (f c).countC = c.countC) →
          lookupD (updateDistrict (ensureDistrict stats item.district) item.district f)
              item.district = some c → c.countC = 0 := by
        intro f hf hc
        rw [lookupD_updateDistrict] at hc
        by_cases hs : (lookupD (ensureDistrict stats item.district) item.district).isSome
        · rw [if_pos ⟨rfl, hs⟩] at hc
          obtain ⟨c0, hc0⟩ := Option.isSome_iff_exists.mp hs
          rw [hc0] at hc
          simp at hc
          rw [← hc, hf]
          exact hens c0 hc0
        · rw [if_neg (fun hx => hs hx.2)] at hc
          exact hens c hc
      cases hdate : rocToGregorian item.currentInspection with
      | none =>
        rw [processItem_eq_none _ _ _ _ _ _ hd hdate] at hc
        exact hens c hc
      | some t =>
        rw [processItem_eq_some _ _ _ _ _ _ _ hd hdate] at hc
        by_cases hA : startA ≤ t ∧ t ≤ endA
        · rw [if_pos hA] at hc
          exact hupd (fun c => { c with countA := c.countA + 1 }) (fun c => rfl) hc
        · rw [if_neg hA] at hc
          by_cases hB : startB ≤ t ∧ t ≤ endB
          · rw [if_pos hB] at hc
            exact hupd (fun c => { c with countB := c.countB + 1 }) (fun c => rfl) hc
          · rw [if_neg hB] at hc
            exact hens c hc

/-- A non-qualifying record — its date unresolvable, or resolved but
outside both windows — leaves an entry that started at `none` or the
zero triple at `none` or zero. -/
theorem zero_entry_processItem (startA endA startB endB : Int) (stats : DistrictStats)
    (item : StationData) (d : String)
    (hinv : lookupD stats d = none ∨ lookupD stats d = some ⟨0, 0, 0⟩)
    (hdate : item.district = d →
      ∀ t, rocToGregorian item.currentInspection = some t →
        ¬ (startA ≤ t ∧ t ≤ endA) ∧ ¬ (startB ≤ t ∧ t ≤ endB)) :
    lookupD (processItem startA endA startB endB stats item) d = none ∨
      lookupD (processItem startA endA startB endB stats item) d = some ⟨0, 0, 0⟩ := by
  by_cases hne : item.district = d
  case neg => rw [lookupD_processItem_other _ _ _ _ _ _ _ hne]; exact hinv
  case pos =>
    by_cases hd : item.district = ""
    · rw [processItem_eq_empty _ _ _ _ _ _ hd]; exact hinv
    · have hz : lookupD (ensureDistrict stats item.district) d = some ⟨0, 0, 0⟩ := by
        rw [hne, lookupD_ensureDistrict, if_pos rfl]
        rcases hinv with hx | hx <;> rw [hx] <;> rfl
      cases hdate0 : rocToGregorian item.currentInspection with
      | none =>
        rw [processItem_eq_none _ _ _ _ _ _ hd hdate0]
        exact Or.inr hz
      | some t =>
        obtain ⟨hA, hB⟩ := hdate hne t hdate0
        rw [processItem_eq_some _ _ _ _ _ _ _ hd hdate0, if_neg hA, if_neg hB]
        exact Or.inr hz

theorem mem_keys_processItem (startA endA startB endB : Int) (stats : DistrictStats)
    (item : StationData) (d : String) :
    d ∈ (processItem startA endA startB endB stats item).map Prod.fst ↔
      d ∈ stats.map Prod.fst ∨ (item.district = d ∧ d ≠ "") := by
  rw [keys_processItem]
  by_cases hd : item.district = ""
  · rw [if_pos hd]
    constructor
    · exact fun h => Or.inl h
    · rintro (h | ⟨h1, h2⟩)
      · exact h
      · exact absurd (hd ▸ h1) (Ne.symm h2)
  · rw [if_neg hd]
    by_cases hs : (lookupD stats item.district).isSome
    · rw [if_pos hs]
      constructor
      · exact fun h => Or.inl h
      · rintro (h | ⟨h1, h2⟩)
        · exact h
        · exact h1 ▸ (lookupD_isSome_iff_mem _ _).mp hs
    · rw [if_neg hs]
      simp only [List.mem_append, List.mem_singleton]
      constructor
      · rintro (h | h)
        · exact Or.inl h
        · exact Or.inr ⟨h.symm, h ▸ hd⟩
      · rintro (h | ⟨h1, h2⟩)
        · exact Or.inl h
        · exact Or.inr h1.symm

theorem nodup_keys_processItem (startA endA startB endB : Int) (stats : DistrictStats)
    (item : StationData) (hnd : (stats.map Prod.fst).Nodup) :
    ((processItem startA endA startB endB stats item).map Prod.fst).Nodup := by
  rw [keys_processItem]
  by_cases hd : item.district = ""
  · rwa [if_pos hd]
  · rw [if_neg hd]
    by_cases hs : (lookupD stats item.district).isSome
    · rwa [if_pos hs]
    · rw [if_neg hs]
      have hmem : item.district ∉ stats.map Prod.fst := by
        rw [← lookupD_isSome_iff_mem]
        exact fun h => hs h
      rw [List.nodup_append]
      refine ⟨hnd, List.nodup_singleton _, ?_⟩
      intro a ha hb
      rw [List.mem_singleton] at hb
      exact hmem (hb ▸ ha)

/-! ## Lemmas about the whole classification fold -/

theorem mem_keys_classify_fold (startA endA startB endB : Int) (data : List StationData)
    (stats : DistrictStats) (d : String) :
    d ∈ ((data.foldl (processItem startA endA startB endB) stats).map Prod.fst) ↔
      d ∈ stats.map Prod.fst ∨ ∃ item ∈ data, item.district = d ∧ d ≠ "" := by
  induction data generalizing stats with
  | nil => simp
  | cons item rest ih =>
    rw [List.foldl_cons, ih, mem_keys_processItem]
    constructor
    · rintro ((h | ⟨h1, h2⟩) | ⟨it, hmem, hit⟩)
      · exact Or.inl h
      · exact Or.inr ⟨item, List.mem_cons_self _ _, h1, h2⟩
      · exact Or.inr ⟨it, List.mem_cons_of_mem _ hmem, hit⟩
    · rintro (h | ⟨it, hmem, hit⟩)
      · exact Or.inl (Or.inl h)
      · rcases List.mem_cons.mp hmem with rfl | hmem'
        · exact Or.inl (Or.inr hit)
        · exact Or.inr ⟨it, hmem', hit⟩

theorem nodup_keys_classify_fold (startA endA startB endB : Int)
    (data : List StationData) (stats : DistrictStats)
    (hnd : (stats.map Prod.fst).Nodup) :
    (((data.foldl (processItem startA endA startB endB) stats)).map Prod.fst).Nodup := by
  induction data generalizing stats with
  | nil => exact hnd
  | cons item rest ih =>
    rw [List.foldl_cons]
    exact ih _ (nodup_keys_processItem _ _ _ _ _ _ hnd)

theorem countC_classify_fold (startA endA startB endB : Int)
    (data : List StationData) (stats : DistrictStats) (d : String)
    (h : ∀ c, lookupD stats d = some c → c.countC = 0) :
    ∀ c, lookupD (data.foldl (processItem startA endA startB endB) stats) d = some c →
      c.countC = 0 := by
  induction data generalizing stats with
  | nil => exact h
  | cons item rest ih =>
    rw [List.foldl_cons]
    exact ih _ (countC_processItem _ _ _ _ _ _ _ h)

theorem zero_entry_classify_fold (startA endA startB endB : Int)
    (data : List StationData) (stats : DistrictStats) (d : String)
    (hinv : lookupD stats d = none ∨ lookupD stats d = some ⟨0, 0, 0⟩)
    (hdates : ∀ item ∈ data, item.district = d →
      ∀ t, rocToGregorian item.currentInspection = some t →
        ¬ (startA ≤ t ∧ t ≤ endA) ∧ ¬ (startB ≤ t ∧ t ≤ endB)) :
    lookupD (data.foldl (processItem startA endA startB endB) stats) d = none ∨
      lookupD (data.foldl (processItem startA endA startB endB) stats) d =
        some ⟨0, 0, 0⟩ := by
  induction data generalizing stats with
  | nil => exact hinv
  | cons item rest ih =>
    rw [List.foldl_cons]
    exact ih _
      (zero_entry_processItem _ _ _ _ _ _ _ hinv
        (hdates item (List.mem_cons_self _ _)))
      (fun it hm hd => hdates it (List.mem_cons_of_mem _ hm) hd)

theorem lookupD_finalizeCountC (stats : DistrictStats) (d : String) :
    lookupD (finalizeCountC stats) d =
      (lookupD stats d).map (fun c => { c with countC := c.countA + c.countB }) := by
  induction stats with
  | nil => simp [finalizeCountC, lookupD]
  | cons p rest ih =>
    obtain ⟨k, v⟩ := p
    by_cases h : k = d <;> simp [finalizeCountC, lookupD, h] <;>
      simpa [finalizeCountC] using ih

theorem keys_finalizeCountC (stats : DistrictStats) :
    (finalizeCountC stats).map Prod.fst = stats.map Prod.fst := by
  induction stats with
  | nil => rfl
  | cons p rest ih => simpa [finalizeCountC] using ih

/-- A record of a non-empty district whose resolved date lies in range A
increments that district's `countA` and leaves the other counters as the
just-ensured entry had them. -/
theorem processItem_inA (startA endA startB endB : Int) (stats : DistrictStats)
    (item : StationData) (t : Int) (hd : item.district ≠ "")
    (hdate : rocToGregorian item.currentInspection = some t)
    (hA : startA ≤ t ∧ t ≤ endA) :
    ∃ c, lookupD (ensureDistrict stats item.district) item.district = some c ∧
      lookupD (processItem startA endA startB endB stats item) item.district =
        some ⟨c.countA + 1, c.countB, c.countC⟩ := by
  have hens : lookupD (ensureDistrict stats item.district) item.district =
      some ((lookupD stats item.district).getD ⟨0, 0, 0⟩) := by
    rw [lookupD_ensureDistrict, if_pos rfl]
  refine ⟨_, hens, ?_⟩
  rw [processItem_eq_some _ _ _ _ _ _ _ hd hdate, if_pos hA, lookupD_updateDistrict,
    if_pos ⟨rfl, by rw [hens]; rfl⟩, hens]
  rfl

/-- A record of a non-empty district whose resolved date misses range A
but lies in range B increments that district's `countB` only. -/
theorem processItem_inB (startA endA startB endB : Int) (stats : DistrictStats)
    (item : StationData) (t : Int) (hd : item.district ≠ "")
    (hdate : rocToGregorian item.currentInspection = some t)
    (hAn : ¬ (startA ≤ t ∧ t ≤ endA)) (hB : startB ≤ t ∧ t ≤ endB) :
    ∃ c, lookupD (ensureDistrict stats item.district) item.district = some c ∧
      lookupD (processItem startA endA startB endB stats item) item.district =
        some ⟨c.countA, c.countB + 1, c.countC⟩ := by
  have hens : lookupD (ensureDistrict stats item.district) item.district =
      some ((lookupD stats item.district).getD ⟨0, 0, 0⟩) := by
    rw [lookupD_ensureDistrict, if_pos rfl]
  refine ⟨_, hens, ?_⟩
  rw [processItem_eq_some _ _ _ _ _ _ _ hd hdate, if_neg hAn, if_pos hB,
    lookupD_updateDistrict, if_pos ⟨rfl, by rw [hens]; rfl⟩, hens]
  rfl

/-! ## Converter lemmas -/

/-- Parts produced by the separator split never contain a separator
character; in particular no part contains `-`, so every parseable part
value is non-negative. -/
theorem splitSep_no_sep (cs : List Char) (p : List Char) (hp : p ∈ splitSep cs) :
    ∀ c ∈ p, ¬ (c = '/' || c = '-') = true := by
  induction cs generalizing p with
  | nil =>
    simp [splitSep] at hp
    subst hp
    simp
  | cons c cs ih =>
    by_cases hc : (c = '/' || c = '-') = true
    · rw [splitSep, if_pos hc] at hp
      rcases List.mem_cons.mp hp with rfl | hp'
      · simp
      · exact ih p hp'
    · rw [splitSep, if_neg hc] at hp
      cases hsp : splitSep cs with
      | nil =>
        rw [hsp] at hp
        simp at hp
        subst hp
        intro x hx
        rw [List.mem_singleton] at hx
        subst hx
        exact hc
      | cons q qs =>
        rw [hsp] at hp
        rcases List.mem_cons.mp hp with rfl | hp'
        · intro x hx
          rcases List.mem_cons.mp hx with rfl | hx'
          · exact hc
          · exact ih q (hsp ▸ List.mem_cons_self _ _) x hx'
        · exact ih p (hsp ▸ List.mem_cons_of_mem _ hp')

theorem parseIntJS_nonneg (p : List Char) (hminus : '-' ∉ p) (v : Int)
    (hv : parseIntJS p = some v) : 0 ≤ v := by
  simp only [parseIntJS] at hv
  by_cases hh : (p.dropWhile isJsSpace).head? = some '-'
  · exfalso
    exact hminus ((List.dropWhile_sublist isJsSpace).subset (List.mem_of_mem_head? hh))
  · rw [if_neg hh] at hv
    repeat' split at hv
    all_goals first
      | exact Option.noConfusion hv
      | (rw [Option.some_inj] at hv
         rw [← hv]
         simpa using Int.ofNat_nonneg _)

theorem roc_none_of_ne_three (s : String)
    (hlen : (splitSep s.data).length ≠ 3) : rocToGregorian s = none := by
  unfold rocToGregorian
  by_cases hs : s = ""
  · rw [if_pos hs]
  · rw [if_neg hs]
    cases hsp : splitSep s.data with
    | nil => rfl
    | cons a t =>
      cases t with
      | nil => rfl
      | cons b t2 =>
        cases t2 with
        | nil => rfl
        | cons c t3 =>
          cases t3 with
          | nil => exact absurd (by rw [hsp]; rfl) hlen
          | cons e t4 => rfl

/-- On a three-part split, `rocToGregorian` is the three-way parse match. -/
theorem rocToGregorian_eq_parts (s : String) (p0 p1 p2 : List Char)
    (hs : ¬ s = "") (hsp : splitSep s.data = [p0, p1, p2]) :
    rocToGregorian s =
      (match parseIntJS p0, parseIntJS p1, parseIntJS p2 with
        | some rocYear, some month, some day =>
          some (newDateYMD (rocYear + 1911) (month - 1) day)
        | _, _, _ => none) := by
  unfold rocToGregorian
  rw [if_neg hs, hsp]

theorem roc_some_of_parses (s : String) (p0 p1 p2 : List Char) (y m d : Int)
    (hsp : splitSep s.data = [p0, p1, p2])
    (h0 : parseIntJS p0 = some y) (h1 : parseIntJS p1 = some m)
    (h2 : parseIntJS p2 = some d) :
    rocToGregorian s = some (newDateYMD (y + 1911) (m - 1) d) := by
  have hs : ¬ s = "" := by
    intro h
    subst h
    simp [splitSep] at hsp
  rw [rocToGregorian_eq_parts s p0 p1 p2 hs hsp, h0, h1, h2]

theorem roc_none_of_parse_none (s : String) (p0 p1 p2 : List Char)
    (hsp : splitSep s.data = [p0, p1, p2])
    (hp : parseIntJS p0 = none ∨ parseIntJS p1 = none ∨ parseIntJS p2 = none) :
    rocToGregorian s = none := by
  have hs : ¬ s = "" := by
    intro h
    subst h
    simp [splitSep] at hsp
  rw [rocToGregorian_eq_parts s p0 p1 p2 hs hsp]
  cases hx0 : parseIntJS p0 with
  | none => rfl
  | some y =>
    cases hx1 : parseIntJS p1 with
    | none => rfl
    | some m =>
      cases hx2 : parseIntJS p2 with
      | none => rfl
      | some dd =>
        rcases hp with hp | hp | hp
        · rw [hp] at hx0; cases hx0
        · rw [hp] at hx1; cases hx1
        · rw [hp] at hx2; cases hx2

/-! ## Order lemmas for the UTF-16 sort -/

theorem lexLtB_asymm : ∀ x y : List Nat, lexLtB x y = true → lexLtB y x = false := by
  intro x
  induction x with
  | nil =>
    intro y h
    cases y with
    | nil => cases h
    | cons b bs => rfl
  | cons a as ih =>
    intro y h
    cases y with
    | nil => cases h
    | cons b bs =>
      simp only [lexLtB] at h ⊢
      by_cases hab : a < b
      · rw [if_neg (by omega : ¬ b < a), if_pos hab]
      · rw [if_neg hab] at h
        by_cases hba : b < a
        · rw [if_pos hba] at h
          cases h
        · rw [if_neg hba] at h
          rw [if_neg hba, if_neg hab]
          exact ih bs h

theorem lexLtB_connex : ∀ x y : List Nat,
    lexLtB x y = false → lexLtB y x = false → x = y := by
  intro x
  induction x with
  | nil =>
    intro y h _
    cases y with
    | nil => rfl
    | cons b bs => cases h
  | cons a as ih =>
    intro y h h'
    cases y with
    | nil => cases h'
    | cons b bs =>
      simp only [lexLtB] at h h'
      by_cases hab : a < b
      · rw [if_pos hab] at h
        cases h
      · by_cases hba : b < a
        · rw [if_pos hba] at h'
          cases h'
        · rw [if_neg hab, if_neg hba] at h
          rw [if_neg hba, if_neg hab] at h'
          have hk : a = b := by omega
          rw [hk, ih bs h h']

theorem lexLtB_trans : ∀ x y z : List Nat,
    lexLtB x y = true → lexLtB y z = true → lexLtB x z = true := by
  intro x
  induction x with
  | nil =>
    intro y z hxy hyz
    cases z with
    | nil =>
      cases y with
      | nil => cases hxy
      | cons b bs => cases hyz
    | cons c cs => rfl
  | cons a as ih =>
    intro y z hxy hyz
    cases y with
    | nil => cases hxy
    | cons b bs =>
      cases z with
      | nil => cases hyz
      | cons c cs =>
        simp only [lexLtB] at hxy hyz ⊢
        by_cases hab : a < b
        · rw [if_pos hab] at hxy
          by_cases hbc : b < c
          · rw [if_pos (by omega : a < c)]
          · rw [if_neg hbc] at hyz
            by_cases hcb : c < b
            · rw [if_pos hcb] at hyz
              cases hyz
            · have hk : b = c := by omega
              rw [if_pos (by omega : a < c)]
        · rw [if_neg hab] at hxy
          by_cases hba : b < a
          · rw [if_pos hba] at hxy
            cases hxy
          · rw [if_neg hba] at hxy
            have hk : a = b := by omega
            subst hk
            by_cases hac : a < c
            · rw [if_pos hac]
            · rw [if_neg hac] at hyz ⊢
              by_cases hca : c < a
              · rw [if_pos hca] at hyz
                cases hyz
              · rw [if_neg hca] at hyz ⊢
                exact ih bs cs hxy hyz

instance : IsTotal String jsLe := by
  constructor
  intro a b
  by_cases h : lexLtB (utf16Units b) (utf16Units a) = true
  · exact Or.inr (lexLtB_asymm _ _ h)
  · refine Or.inl ?_
    unfold jsLe
    rwa [Bool.not_eq_true] at h

instance : IsTrans String jsLe := by
  constructor
  intro a b c hab hbc
  unfold jsLe at hab hbc ⊢
  cases hx : lexLtB (utf16Units c) (utf16Units a) with
  | false => rfl
  | true =>
    exfalso
    by_cases hbc2 : lexLtB (utf16Units b) (utf16Units c) = true
    · have := lexLtB_trans _ _ _ hbc2 hx
      rw [this] at hab
      cases hab
    · rw [Bool.not_eq_true] at hbc2
      have hk : utf16Units b = utf16Units c := lexLtB_connex _ _ hbc2 hbc
      rw [← hk] at hx
      rw [hx] at hab
      cases hab

theorem jsSort_sorted (l : List String) : List.Sorted jsLe (jsSort l) :=
  List.sorted_insertionSort jsLe l

theorem jsSort_perm (l : List String) : List.Perm (jsSort l) l :=
  List.perm_insertionSort jsLe l

/-! ## Lemmas about the completion pass -/

/-- The completion fold, characterised: entries for the qualifying
districts in visit order, and the two running sums. -/
theorem completion_foldl (stats : DistrictStats) (targets : TargetMap) :
    ∀ (ds : List String) (acc : List CompletionEntry × ℚ × ℚ),
      ds.foldl (completionStep stats targets) acc =
        (acc.1 ++ (ds.filter (hasPosTarget targets)).map
            (fun d => ⟨d, countCQ stats d / targetQ targets d * 100⟩),
          acc.2.1 + ((ds.filter (hasPosTarget targets)).map (countCQ stats)).sum,
          acc.2.2 + ((ds.filter (hasPosTarget targets)).map (targetQ targets)).sum) := by
  intro ds
  induction ds with
  | nil => intro acc; simp
  | cons d rest ih =>
    intro acc
    rw [List.foldl_cons, ih]
    cases hl : lookupD targets d with
    | none =>
      have hpos : hasPosTarget targets d = false := by
        simp [hasPosTarget, hl]
      simp only [completionStep, hl, List.filter_cons, hpos]
      rfl
    | some t =>
      by_cases ht : 0 < t
      · have hpos : hasPosTarget targets d = true := by
          simp [hasPosTarget, hl, ht]
        have htq : targetQ targets d = t := by simp [targetQ, hl]
        simp only [completionStep, hl, if_pos ht, List.filter_cons, hpos, if_pos,
          List.map_cons, List.sum_cons, countCQ, htq]
        refine congrArg₂ Prod.mk ?_ (congrArg₂ Prod.mk ?_ ?_)
        · rw [List.append_assoc]
          rfl
        · rw [add_assoc]
        · rw [add_assoc]
      · have hpos : hasPosTarget targets d = false := by
          simp [hasPosTarget, hl, ht]
        simp only [completionStep, hl, if_neg ht, List.filter_cons, hpos]
        rfl

/-- `renderCompletionVisuals`'s data: per-district entries over the
sorted qualifying districts, then the aggregate when the target sum is
positive. -/
theorem renderCompletionData_eq (stats : DistrictStats) (targets : TargetMap) :
    renderCompletionData stats targets =
      (qualifyingDistricts stats targets).map
        (fun d => ⟨d, countCQ stats d / targetQ targets d * 100⟩) ++
      (if 0 < sumTargetQ stats targets then
        [⟨"總轄區", sumCQ stats targets / sumTargetQ stats targets * 100⟩]
      else []) := by
  unfold renderCompletionData qualifyingDistricts sumCQ sumTargetQ
  rw [completion_foldl]
  simp only [List.nil_append, zero_add]
  unfold qualifyingDistricts
  by_cases hq : 0 < ((((jsSort (stats.map Prod.fst)).filter
      (hasPosTarget targets)).map (targetQ targets)).sum : ℚ)
  · rw [if_pos hq, if_pos hq]
  · rw [if_neg hq, if_neg hq, List.append_nil]

/-! ## The claims -/

/-- **C1**: in every `DistrictStats` produced by
`calculateYearlyDistrictStats`, every district's `countC` equals
`countA + countB`; and the equality comes from the final pass over the
result map, not incremental accumulation — the classification fold
(`classifyPass`) leaves `countC` at `0` for every district, and the
final `finalizeCountC` pass recomputes it as `countA + countB`. -/
theorem countC_invariant (data : List StationData) (startA endA startB endB : Int)
    (d : String) :
    (∀ c, lookupD (classifyPass data startA endA startB endB) d = some c →
      c.countC = 0) ∧
    (∀ c, lookupD (calculateYearlyDistrictStats data startA endA startB endB) d =
      some c → c.countC = c.countA + c.countB) := by
  constructor
  · unfold classifyPass
    exact countC_classify_fold _ _ _ _ data [] d (fun c hc => by simp [lookupD] at hc)
  · intro c hc
    rw [calculateYearlyDistrictStats, lookupD_finalizeCountC] at hc
    cases hx : lookupD (classifyPass data startA endA startB endB) d with
    | none => rw [hx] at hc; simp at hc
    | some c0 =>
      rw [hx] at hc
      simp at hc
      rw [← hc]

theorem countC_invariant_witness :
    ((⟨1, 0, 0⟩ : Counts).countC = 0) ∧
    ((⟨1, 0, 1⟩ : Counts).countC = (⟨1, 0, 1⟩ : Counts).countA +
      (⟨1, 0, 1⟩ : Counts).countB) :=
  ⟨(countC_invariant [⟨"S1", "北區", "T", 10, "", "113/05/20", "", ""⟩]
      0 2000000000000 0 0 "北區").1 ⟨1, 0, 0⟩ (by decide),
   (countC_invariant [⟨"S1", "北區", "T", 10, "", "113/05/20", "", ""⟩]
      0 2000000000000 0 0 "北區").2 ⟨1, 0, 1⟩ (by decide)⟩

/-- **C4**: a record whose resolved date falls inside both window A and
window B is counted in `countA` only and never in `countB`: at any point
of the classification fold the step increments the district's `countA`
and leaves `countB` (and `countC`) unchanged, and a whole pass over just
that record yields the triple `(1, 0, 1)`. -/
theorem overlap_counted_in_A_only (startA endA startB endB : Int)
    (stats : DistrictStats) (item : StationData) (t : Int)
    (hd : item.district ≠ "")
    (hdate : rocToGregorian item.currentInspection = some t)
    (hA : startA ≤ t ∧ t ≤ endA) (hB : startB ≤ t ∧ t ≤ endB) :
    (∃ c, lookupD (ensureDistrict stats item.district) item.district = some c ∧
      lookupD (processItem startA endA startB endB stats item) item.district =
        some ⟨c.countA + 1, c.countB, c.countC⟩) ∧
    calculateYearlyDistrictStats [item] startA endA startB endB =
      [(item.district, ⟨1, 0, 1⟩)] := by
  refine ⟨processItem_inA _ _ _ _ _ _ _ hd hdate hA, ?_⟩
  have h1 : processItem startA endA startB endB [] item =
      [(item.district, ⟨1, 0, 0⟩)] := by
    rw [processItem_eq_some _ _ _ _ _ _ _ hd hdate, if_pos hA]
    simp [ensureDistrict, lookupD, updateDistrict]
  rw [calculateYearlyDistrictStats, classifyPass, List.foldl_cons, List.foldl_nil, h1]
  rfl

theorem overlap_counted_in_A_only_witness :
    calculateYearlyDistrictStats [⟨"S1", "北區", "T", 10, "", "113/05/20", "", ""⟩]
      0 2000000000000 1716163200000 1716163200000 =
      [("北區", ⟨1, 0, 1⟩)] :=
  (overlap_counted_in_A_only 0 2000000000000 1716163200000 1716163200000 []
    ⟨"S1", "北區", "T", 10, "", "113/05/20", "", ""⟩ 1716163200000
    (by decide) (by decide) ⟨by decide, by decide⟩ ⟨by decide, by decide⟩).2

/-- **C5**: both window bounds are inclusive: a record whose resolved
date equals window A's end timestamp is counted in `countA`, and one
whose resolved date lies past window A's end (in particular the next
day) is excluded from A and, when it lies in window B, counted in
`countB` instead. -/
theorem boundary_inclusivity (startA endA startB endB : Int)
    (stats : DistrictStats) (item : StationData) (t : Int)
    (hd : item.district ≠ "")
    (hdate : rocToGregorian item.currentInspection = some t) :
    (t = endA → startA ≤ t →
      ∃ c, lookupD (ensureDistrict stats item.district) item.district = some c ∧
        lookupD (processItem startA endA startB endB stats item) item.district =
          some ⟨c.countA + 1, c.countB, c.countC⟩) ∧
    (endA < t → startB ≤ t → t ≤ endB →
      ∃ c, lookupD (ensureDistrict stats item.district) item.district = some c ∧
        lookupD (processItem startA endA startB endB stats item) item.district =
          some ⟨c.countA, c.countB + 1, c.countC⟩) := by
  constructor
  · intro ht hs
    exact processItem_inA _ _ _ _ _ _ _ hd hdate ⟨hs, le_of_eq ht⟩
  · intro ht hsB heB
    exact processItem_inB _ _ _ _ _ _ _ hd hdate
      (fun hx => absurd hx.2 (not_le.mpr ht)) ⟨hsB, heB⟩

theorem boundary_inclusivity_witness :
    (∃ c, lookupD (ensureDistrict [] "北區") "北區" = some c ∧
      lookupD (processItem 0 1716163200000 0 2000000000000 []
        ⟨"S1", "北區", "T", 10, "", "113/05/20", "", ""⟩) "北區" =
          some ⟨c.countA + 1, c.countB, c.countC⟩) ∧
    (∃ c, lookupD (ensureDistrict [] "北區") "北區" = some c ∧
      lookupD (processItem 0 1716076800000 0 2000000000000 []
        ⟨"S1", "北區", "T", 10, "", "113/05/20", "", ""⟩) "北區" =
          some ⟨c.countA, c.countB + 1, c.countC⟩) :=
  ⟨(boundary_inclusivity 0 1716163200000 0 2000000000000 []
      ⟨"S1", "北區", "T", 10, "", "113/05/20", "", ""⟩ 1716163200000
      (by decide) (by decide)).1 (by decide) (by decide),
   (boundary_inclusivity 0 1716076800000 0 2000000000000 []
      ⟨"S1", "北區", "T", 10, "", "113/05/20", "", ""⟩ 1716163200000
      (by decide) (by decide)).2 (by decide) (by decide) (by decide)⟩

/-- **C6**: the key set of the result of `calculateYearlyDistrictStats`
is exactly the set of distinct non-empty district values among the
records (no duplicate keys), and a district none of whose records
qualifies — each has an unparseable date, or a resolved date falling
outside both windows — still appears with the zero triple. -/
theorem district_key_set (data : List StationData) (startA endA startB endB : Int)
    (d : String) :
    ((∃ c, lookupD (calculateYearlyDistrictStats data startA endA startB endB) d =
        some c) ↔ (d ≠ "" ∧ ∃ item ∈ data, item.district = d)) ∧
    ((calculateYearlyDistrictStats data startA endA startB endB).map Prod.fst).Nodup ∧
    (d ≠ "" → (∃ item ∈ data, item.district = d) →
      (∀ item ∈ data, item.district = d →
        ∀ t, rocToGregorian item.currentInspection = some t →
          ¬ (startA ≤ t ∧ t ≤ endA) ∧ ¬ (startB ≤ t ∧ t ≤ endB)) →
      lookupD (calculateYearlyDistrictStats data startA endA startB endB) d =
        some ⟨0, 0, 0⟩) := by
  have hkeys : ∀ d', d' ∈ (calculateYearlyDistrictStats data startA endA startB endB).map
      Prod.fst ↔ ∃ item ∈ data, item.district = d' ∧ d' ≠ "" := by
    intro d'
    rw [calculateYearlyDistrictStats, keys_finalizeCountC, classifyPass,
      mem_keys_classify_fold]
    simp
  refine ⟨?_, ?_, ?_⟩
  · have h := hkeys d
    rw [← lookupD_isSome_iff_mem, Option.isSome_iff_exists] at h
    rw [h]
    constructor
    · rintro ⟨it, hm, h1, h2⟩
      exact ⟨h2, it, hm, h1⟩
    · rintro ⟨h2, it, hm, h1⟩
      exact ⟨it, hm, h1, h2⟩
  · rw [calculateYearlyDistrictStats, keys_finalizeCountC, classifyPass]
    exact nodup_keys_classify_fold _ _ _ _ data [] List.nodup_nil
  · intro hne ⟨it, hm, hit⟩ hdates
    have hz := zero_entry_classify_fold startA endA startB endB data [] d
      (Or.inl rfl) hdates
    rw [← classifyPass] at hz
    have hmem : d ∈ (calculateYearlyDistrictStats data startA endA startB endB).map
        Prod.fst := (hkeys d).mpr ⟨it, hm, hit, hne⟩
    rw [calculateYearlyDistrictStats, lookupD_finalizeCountC]
    rcases hz with hx | hx
    · exfalso
      rw [calculateYearlyDistrictStats, keys_finalizeCountC] at hmem
      rw [lookupD_eq_none_iff_not_mem] at hx
      exact hx hmem
    · rw [hx]
      rfl

theorem district_key_set_witness :
    lookupD (calculateYearlyDistrictStats
      [⟨"S2", "南區", "T", 10, "", "abc", "", ""⟩,
       ⟨"S3", "南區", "T", 10, "", "113/05/20", "", ""⟩] 0 1 2 3) "南區" =
      some ⟨0, 0, 0⟩ :=
  (district_key_set
    [⟨"S2", "南區", "T", 10, "", "abc", "", ""⟩,
     ⟨"S3", "南區", "T", 10, "", "113/05/20", "", ""⟩] 0 1 2 3 "南區").2.2
    (by decide) ⟨⟨"S2", "南區", "T", 10, "", "abc", "", ""⟩, by decide⟩
    (by
      intro item hm hd t ht
      rcases List.mem_cons.mp hm with heq | hm2
      · subst heq
        have hn : rocToGregorian
            (⟨"S2", "南區", "T", 10, "", "abc", "", ""⟩ :
              StationData).currentInspection = none := by decide
        rw [hn] at ht
        cases ht
      · rcases List.mem_cons.mp hm2 with heq | hm3
        · subst heq
          have hsome : rocToGregorian
              (⟨"S3", "南區", "T", 10, "", "113/05/20", "", ""⟩ :
                StationData).currentInspection = some 1716163200000 := by decide
          rw [hsome, Option.some_inj] at ht
          subst ht
          decide
        · cases hm3)

/-- **C2**: a well-formed three-segment date string resolves as
Gregorian year = first segment + 1911, 0-indexed month = second − 1,
day as-is, with out-of-range values rolled over by the date
constructor's normalisation (`rolloverMs`); in particular
`"113/05/20"` is 2024-05-20 and `"113-13-01"` rolls to 2025-01-01.
(The constructor's two-digit-year adjustment never fires: split
segments cannot contain `-`, so the parsed year is non-negative and
the resolved year is at least 1911.) -/
theorem roc_conversion_rule :
    (∀ (s : String) (p0 p1 p2 : List Char) (y m d : Int),
      splitSep s.data = [p0, p1, p2] →
      parseIntJS p0 = some y → parseIntJS p1 = some m → parseIntJS p2 = some d →
      rocToGregorian s = some (rolloverMs (y + 1911) (m - 1) d)) ∧
    rocToGregorian "113/05/20" = some (civilMs 2024 5 20) ∧
    rocToGregorian "113-13-01" = some (civilMs 2025 1 1) := by
  refine ⟨?_, by decide, by decide⟩
  intro s p0 p1 p2 y m d hsp h0 h1 h2
  have hy : 0 ≤ y := by
    apply parseIntJS_nonneg p0 _ y h0
    intro hm
    exact splitSep_no_sep s.data p0 (hsp ▸ List.mem_cons_self _ _) '-' hm (by decide)
  rw [roc_some_of_parses s p0 p1 p2 y m d hsp h0 h1 h2]
  unfold newDateYMD
  rw [if_neg (by omega : ¬ (0 ≤ y + 1911 ∧ y + 1911 ≤ 99))]

theorem roc_conversion_rule_witness :
    splitSep "113/05/20".data = ["113".data, "05".data, "20".data] ∧
    rocToGregorian "113/05/20" = some (rolloverMs (113 + 1911) (5 - 1) 20) :=
  ⟨by decide,
   roc_conversion_rule.1 "113/05/20" "113".data "05".data "20".data 113 5 20
     (by decide) (by decide) (by decide) (by decide)⟩

/-- **C3**: inputs that do not split into exactly three parseable
segments yield `null` rather than crashing: the concrete inputs
`"abc/05/20"`, `""` and `null`, any split with segment count other
than three, and any three-way split with an unparseable segment. -/
theorem roc_invalid_inputs :
    rocToGregorian "abc/05/20" = none ∧
    rocToGregorian "" = none ∧
    rocToGregorianNullable none = none ∧
    (∀ s : String, (splitSep s.data).length ≠ 3 → rocToGregorian s = none) ∧
    (∀ (s : String) (p0 p1 p2 : List Char),
      splitSep s.data = [p0, p1, p2] →
      parseIntJS p0 = none ∨ parseIntJS p1 = none ∨ parseIntJS p2 = none →
      rocToGregorian s = none) :=
  ⟨by decide, by decide, rfl, roc_none_of_ne_three, roc_none_of_parse_none⟩

theorem roc_invalid_inputs_witness :
    rocToGregorian "113/05" = none ∧ rocToGregorian "abc/05/20" = none :=
  ⟨roc_invalid_inputs.2.2.2.1 "113/05" (by decide),
   roc_invalid_inputs.2.2.2.2 "abc/05/20" "abc".data "05".data "20".data
     (by decide) (Or.inl (by decide))⟩

/-- **C10**: segments only need a parseable leading integer —
`"113a/05/20"` still resolves to 2024-05-20 — and the converter
returns `null` exactly when the split does not have three parts or
some part has no parseable leading digit. -/
theorem roc_leading_digits :
    rocToGregorian "113a/05/20" = some (civilMs 2024 5 20) ∧
    (∀ s : String, rocToGregorian s = none ↔
      ((splitSep s.data).length ≠ 3 ∨
        ∃ p ∈ splitSep s.data, parseIntJS p = none)) := by
  refine ⟨by decide, ?_⟩
  intro s
  constructor
  · intro hnone
    by_cases hlen : (splitSep s.data).length = 3
    · obtain ⟨p0, p1, p2, hsp⟩ := List.length_eq_three.mp hlen
      right
      cases h0 : parseIntJS p0 with
      | none => exact ⟨p0, by rw [hsp]; exact List.mem_cons_self _ _, h0⟩
      | some y =>
        cases h1 : parseIntJS p1 with
        | none => exact ⟨p1, by rw [hsp]; simp, h1⟩
        | some m =>
          cases h2 : parseIntJS p2 with
          | none => exact ⟨p2, by rw [hsp]; simp, h2⟩
          | some d =>
            exfalso
            rw [roc_some_of_parses s p0 p1 p2 y m d hsp h0 h1 h2] at hnone
            cases hnone
    · exact Or.inl hlen
  · rintro (hlen | ⟨p, hp, hpn⟩)
    · exact roc_none_of_ne_three s hlen
    · by_cases hlen : (splitSep s.data).length = 3
      · obtain ⟨p0, p1, p2, hsp⟩ := List.length_eq_three.mp hlen
        rw [hsp] at hp
        rcases List.mem_cons.mp hp with heq | hp'
        · exact roc_none_of_parse_none s p0 p1 p2 hsp (Or.inl (heq ▸ hpn))
        · rcases List.mem_cons.mp hp' with heq | hp''
          · exact roc_none_of_parse_none s p0 p1 p2 hsp (Or.inr (Or.inl (heq ▸ hpn)))
          · rw [List.mem_singleton] at hp''
            exact roc_none_of_parse_none s p0 p1 p2 hsp (Or.inr (Or.inr (hp'' ▸ hpn)))
      · exact roc_none_of_ne_three s hlen

theorem roc_leading_digits_witness :
    rocToGregorian "x1/2/3" = none :=
  (roc_leading_digits.2 "x1/2/3").mpr (Or.inr ⟨"x1".data, by decide, by decide⟩)

/-- **C7**: a district with lookup value `c` and a strictly positive
target `t` receives the completion entry `(d, c.countC / t * 100)`
(rational division standing for the JS float division); a district with
an absent or non-positive target is not among the qualifying districts,
so it produces no per-district entry — entries are only ever built with
a strictly positive divisor, so no division by zero occurs.  The two
concrete scenarios of the spec evaluate as stated. -/
theorem completion_percentages (stats : DistrictStats) (targets : TargetMap)
    (d : String) :
    (∀ c t, lookupD stats d = some c → lookupD targets d = some t → 0 < t →
      (⟨d, (c.countC : ℚ) / t * 100⟩ : CompletionEntry) ∈
        renderCompletionData stats targets) ∧
    ((lookupD targets d = none ∨ ∃ t, lookupD targets d = some t ∧ t ≤ 0) →
      ∀ e ∈ (qualifyingDistricts stats targets).map
        (fun d' => (⟨d', countCQ stats d' / targetQ targets d' * 100⟩ :
          CompletionEntry)), e.key ≠ d) ∧
    renderCompletionData [("North", ⟨10, 30, 40⟩)] [("North", 50)] =
      [⟨"North", 80⟩, ⟨"總轄區", 80⟩] ∧
    renderCompletionData [("North", ⟨10, 30, 40⟩)] [("North", 0)] = [] := by
  refine ⟨?_, ?_, ?_, ?_⟩
  · intro c t hc ht htpos
    rw [renderCompletionData_eq]
    apply List.mem_append_left
    have hq : d ∈ qualifyingDistricts stats targets := by
      unfold qualifyingDistricts
      apply List.mem_filter.mpr
      refine ⟨?_, ?_⟩
      · rw [(jsSort_perm _).mem_iff, ← lookupD_isSome_iff_mem, hc]
        rfl
      · simp [hasPosTarget, ht, htpos]
    have hcq : countCQ stats d = (c.countC : ℚ) := by simp [countCQ, hc]
    have htq : targetQ targets d = t := by simp [targetQ, ht]
    exact List.mem_map.mpr ⟨d, hq, by rw [hcq, htq]⟩
  · intro hbad e he
    obtain ⟨d', hd', rfl⟩ := List.mem_map.mp he
    intro hkey
    simp only at hkey
    subst hkey
    have := (List.mem_filter.mp hd').2
    rcases hbad with hb | ⟨t, hb, hb2⟩
    · simp [hasPosTarget, hb] at this
    · simp [hasPosTarget, hb] at this
      exact absurd this (not_lt.mpr hb2)
  · rw [renderCompletionData_eq]
    norm_num [qualifyingDistricts, jsSort, List.insertionSort, hasPosTarget, lookupD,
      sumTargetQ, sumCQ, countCQ, targetQ]
  · rw [renderCompletionData_eq]
    norm_num [qualifyingDistricts, jsSort, List.insertionSort, hasPosTarget, lookupD,
      sumTargetQ, sumCQ, countCQ, targetQ]

theorem completion_percentages_witness :
    (⟨"North", ((40 : ℚ) / 50 * 100 : ℚ)⟩ : CompletionEntry) ∈
      renderCompletionData [("North", ⟨10, 30, 40⟩)] [("North", 50)] :=
  (completion_percentages [("North", ⟨10, 30, 40⟩)] [("North", 50)] "North").1
    ⟨10, 30, 40⟩ 50 (by simp [lookupD]) (by simp [lookupD]) (by norm_num)

/-- **C8** counterexample: the claim additionally asserts that the
aggregate label (總轄區) is distinct from any district name, but the
code does not guard against a district literally named 總轄區: for such
input the output contains a per-district entry and the aggregate entry
carrying the same label. -/
theorem aggregate_label_collision :
    renderCompletionData [("總轄區", ⟨0, 0, 1⟩)] [("總轄區", 1)] =
      [⟨"總轄區", 100⟩, ⟨"總轄區", 100⟩] ∧
    "總轄區" ∈ ([("總轄區", (⟨0, 0, 1⟩ : Counts))] : DistrictStats).map Prod.fst := by
  constructor
  · rw [renderCompletionData_eq]
    norm_num [qualifyingDistricts, jsSort, List.insertionSort, hasPosTarget, lookupD,
      sumTargetQ, sumCQ, countCQ, targetQ]
  · simp

/-- **C8** (amended): the completion output is the per-district entries
over the qualifying districts — sorted ascending by district name in
UTF-16 code-unit order — followed (last) by one aggregate entry with
percentage `(sum countC) / (sum target) * 100`, present exactly when
the target sum is positive; the aggregate carries the fixed label
總轄區, which is distinct from every district name provided no district
is itself named 總轄區 (the code does not guard that case). -/
theorem completion_output_shape (stats : DistrictStats) (targets : TargetMap) :
    renderCompletionData stats targets =
      (qualifyingDistricts stats targets).map
        (fun d => ⟨d, countCQ stats d / targetQ targets d * 100⟩) ++
      (if 0 < sumTargetQ stats targets then
        [⟨"總轄區", sumCQ stats targets / sumTargetQ stats targets * 100⟩]
      else []) ∧
    List.Sorted jsLe (qualifyingDistricts stats targets) ∧
    ("總轄區" ∉ stats.map Prod.fst →
      ∀ d ∈ qualifyingDistricts stats targets, d ≠ "總轄區") := by
  refine ⟨renderCompletionData_eq stats targets, ?_, ?_⟩
  · exact (jsSort_sorted (stats.map Prod.fst)).filter _
  · intro hno d hd
    have : d ∈ stats.map Prod.fst := by
      have := (List.mem_filter.mp hd).1
      rwa [(jsSort_perm _).mem_iff] at this
    intro hk
    exact hno (hk ▸ this)

theorem completion_output_shape_witness :
    ("North" : String) ≠ "總轄區" :=
  (completion_output_shape [("North", ⟨10, 30, 40⟩)] [("North", 50)]).2.2
    (by decide) "North" (by decide)

end GD
